import Mathlib

/-!
Verification of the strategy state machine of `binance_discord_trading_bot.py`.

Shallow embedding conventions:
- Python floats (prices, quantities, budgets) are modelled as rationals `ℚ`;
  the code's arithmetic is ordinary field arithmetic on these values.
- The positions dictionary `Dict[str, Position]` is modelled as an insertion
  ordered association list `PosMap` with dict semantics: assignment replaces
  the value of an existing key and otherwise appends, `del` removes the key.
- An exchange order result (`market_buy` / `market_sell` returning
  `Optional[Dict]`) is abstracted to `Option Fill`, where `Fill` carries the
  executed quantity and volume weighted average price that `on_price` parses
  out of the order response (`fills`, or `executedQty`/`cummulativeQuoteQty`).
  `none` models both an exchange exception and `market_buy`'s early
  `return None` when the rounded quantity is non-positive.
- `save_state` writing to disk is modelled by the `saveOk` flag of
  `onPriceRun`: when `saveOk = false`, the first `save_state` call reached
  raises, the mutations already performed stay in memory, and the remainder
  of `on_price` is skipped (third component `false` = an exception escaped).
- `entry_time` (`str(loop.time())`) is an opaque string input `now`.
-/

/-- Strategy parameters, mirroring the `Parameters` dataclass and its
defaults. -/
structure Parameters where
  symbol : String
  decrease_pct : ℚ
  increase_pct : ℚ
  tx_amount : ℚ
  allocated_budget : ℚ
deriving DecidableEq

/-- Default parameter values of the `Parameters` dataclass. -/
def Parameters.default : Parameters :=
  { symbol := "BTCUSDT"
    decrease_pct := 2/100
    increase_pct := 3/100
    tx_amount := 50
    allocated_budget := 500 }

/-- An open position, mirroring the `Position` dataclass. -/
structure Position where
  symbol : String
  quantity : ℚ
  buy_price : ℚ
  highest_price : ℚ
  entry_time : String
deriving DecidableEq

/-- The positions dictionary: an association list with Python-dict
semantics (unique keys in practice, insertion order preserved). -/
abbrev PosMap : Type := List (String × Position)


/-- Dictionary lookup `positions.get(k)`. -/
def PosMap.get (m : PosMap) (k : String) : Option Position :=
  match m with
  | [] => none
  | (k1, v) :: t => if k1 = k then some v else PosMap.get t k

/-- Dictionary assignment `positions[k] = v`: replaces the value at an
existing key, otherwise appends a new entry. -/
def PosMap.insert (m : PosMap) (k : String) (v : Position) : PosMap :=
  match m with
  | [] => [(k, v)]
  | (k1, v1) :: t =>
      if k1 = k then (k1, v) :: t else (k1, v1) :: PosMap.insert t k v

/-- Dictionary deletion `del positions[k]` (removes the entry for `k`;
keys are unique in a Python dict, so removing the first occurrence is
exact). -/
def PosMap.erase (m : PosMap) (k : String) : PosMap :=
  match m with
  | [] => []
  | (k1, v1) :: t =>
      if k1 = k then t else (k1, v1) :: PosMap.erase t k

/-- The keys of the positions dictionary. -/
def PosMap.keys (m : PosMap) : List String := m.map Prod.fst

/-- The full bot state, mirroring the `BotState` dataclass. -/
structure BotState where
  params : Parameters
  remaining_budget : ℚ
  positions : PosMap
  last_reference_price : Option ℚ
  running : Bool
deriving DecidableEq

/-- A parsed order execution result: executed quantity and volume weighted
average price. -/
structure Fill where
  qty : ℚ
  price : ℚ
deriving DecidableEq

/-- An order intent emitted towards the exchange: `market_buy` with a quote
amount, or `market_sell` of a base quantity. -/
inductive BotAction where
  | buy (quoteAmount : ℚ)
  | sell (quantity : ℚ)
deriving DecidableEq

/-- One execution of `TradingBot.on_price(price)`.

Arguments `buyRes` / `sellRes` are the environment's answers to the
`market_buy` / `market_sell` call if one is made this tick; `now` is the
entry timestamp string; `saveOk` tells whether `save_state` succeeds
(`false` = the first `save_state` call reached raises an exception).

Returns the in-memory state after the call, the order intent emitted (if
any), and `true` iff the call returned normally (no exception escaped). -/
def onPriceRun (s : BotState) (price : ℚ) (buyRes sellRes : Option Fill)
    (now : String) (saveOk : Bool) : BotState × Option BotAction × Bool :=
  match s.last_reference_price with
  | none =>
      -- initialize reference price if not set, save, return
      ({ s with last_reference_price := some price }, none, saveOk)
  | some refPrice =>
    match PosMap.get s.positions s.params.symbol with
    | none =>
      -- no open position for the symbol: check buy signal
      if price ≤ refPrice * (1 - s.params.decrease_pct) then
        if s.params.tx_amount ≤ s.remaining_budget then
          -- buy signal with sufficient budget: market_buy is attempted
          match buyRes with
          | none => (s, some (BotAction.buy s.params.tx_amount), true)
          | some fill =>
            if 0 < fill.qty then
              let pos : Position :=
                { symbol := s.params.symbol, quantity := fill.qty,
                  buy_price := fill.price, highest_price := fill.price,
                  entry_time := now }
              ({ s with
                  positions := PosMap.insert s.positions s.params.symbol pos,
                  remaining_budget := s.remaining_budget - s.params.tx_amount },
               some (BotAction.buy s.params.tx_amount), saveOk)
            else
              -- "Buy executed but qty=0": no mutation
              (s, some (BotAction.buy s.params.tx_amount), true)
        else
          -- insufficient budget: no action, no mutation
          (s, none, true)
      else
        if refPrice < price then
          -- ratchet the reference price upward
          ({ s with last_reference_price := some price }, none, saveOk)
        else
          (s, none, true)
    | some pos =>
      -- open position: track highest price, then profit target / trailing stop
      let pos1 : Position := { pos with highest_price := max pos.highest_price price }
      let s1 : BotState := { s with positions := PosMap.insert s.positions s.params.symbol pos1 }
      if saveOk then
        if pos.buy_price * (1 + s.params.increase_pct) ≤ price then
          -- profit target reached: market_sell attempted, then return
          match sellRes with
          | none => (s1, some (BotAction.sell pos.quantity), true)
          | some _ =>
              -- del positions[pos.symbol]; reference reseeded to current price
              ({ s1 with
                  positions := PosMap.erase s1.positions pos.symbol,
                  last_reference_price := some price },
               some (BotAction.sell pos.quantity), true)
        else
          if pos1.buy_price < pos1.highest_price then
            if price ≤ pos1.highest_price * (1 - s.params.decrease_pct) ∧
               pos1.buy_price ≤ price then
              match sellRes with
              | none => (s1, some (BotAction.sell pos.quantity), true)
              | some _ =>
                  ({ s1 with
                      positions := PosMap.erase s1.positions pos.symbol,
                      last_reference_price := some price },
                   some (BotAction.sell pos.quantity), true)
            else (s1, none, true)
          else
            -- position not yet in profit: no trailing stop armed
            (s1, none, true)
      else
        -- save_state right after the high-water-mark update raised
        (s1, none, false)

/-- `on_price` under normally functioning persistence: the state after the
call and the order intent emitted. -/
def onPrice (s : BotState) (price : ℚ) (buyRes sellRes : Option Fill)
    (now : String) : BotState × Option BotAction :=
  ((onPriceRun s price buyRes sellRes now true).1,
   (onPriceRun s price buyRes sellRes now true).2.1)

/-- Python `str.upper` on a symbol: uppercase every character. -/
def upperStr (sym : String) : String := String.mk (sym.data.map Char.toUpper)

/-- The `!setcoin` command: uppercases and stores the symbol and clears the
reference price; positions are untouched. -/
def setcoin (s : BotState) (sym : String) : BotState :=
  { s with params := { s.params with symbol := upperStr sym },
           last_reference_price := none }

/-- The `!set_decrease` command: rejected (state unchanged) unless the
fraction is strictly between 0 and 1. -/
def set_decrease (s : BotState) (pct : ℚ) : BotState :=
  if pct ≤ 0 ∨ 1 ≤ pct then s
  else { s with params := { s.params with decrease_pct := pct } }

/-- The `!set_increase` command: rejected unless strictly between 0 and 1. -/
def set_increase (s : BotState) (pct : ℚ) : BotState :=
  if pct ≤ 0 ∨ 1 ≤ pct then s
  else { s with params := { s.params with increase_pct := pct } }

/-- The `!set_amount` command: rejected unless positive. -/
def set_amount (s : BotState) (amount : ℚ) : BotState :=
  if amount ≤ 0 then s
  else { s with params := { s.params with tx_amount := amount } }

/-- The `!set_budget` command: rejected unless positive; sets the allocated
budget and resets the remaining budget to the same amount. -/
def set_budget (s : BotState) (amount : ℚ) : BotState :=
  if amount ≤ 0 then s
  else { s with params := { s.params with allocated_budget := amount },
                remaining_budget := amount }

/-- `TradingBot.start` (as guarded by both the `!start` command and the
method itself): if already running, nothing happens and no monitor task is
created; otherwise `running` is set and a task is spawned. The boolean
records whether a monitor task was created. -/
def startBot (s : BotState) : BotState × Bool :=
  if s.running then (s, false) else ({ s with running := true }, true)

/-- `TradingBot.stop`: if not running, nothing happens and no task is
cancelled; otherwise `running` is cleared and the task cancelled. The
boolean records whether a task was cancelled. -/
def stopBot (s : BotState) : BotState × Bool :=
  if s.running then ({ s with running := false }, true) else (s, false)

/-- The `!reset` command: default parameters, full budget, no positions, no
reference price, not running. -/
def resetCmd (_s : BotState) : BotState :=
  { params := Parameters.default
    remaining_budget := Parameters.default.allocated_budget
    positions := []
    last_reference_price := none
    running := false }

/-- The state produced by `load_state()` when no state file exists: default
`BotState` with the remaining budget initialised to the allocated budget. -/
def initState : BotState :=
  { params := Parameters.default
    remaining_budget := Parameters.default.allocated_budget
    positions := []
    last_reference_price := none
    running := false }

/-- One iteration of the body of `price_monitor_loop` (entered with
`running` true): a failed price fetch is caught and logged, leaving the
state unchanged; otherwise `on_price` runs, and any exception it raises
(in particular a failed `save_state`) is caught by the loop's generic
handler, keeping whatever mutations happened in memory. The loop then
proceeds to the next iteration, which runs iff `running` is still true. -/
def monitorIter (s : BotState) (fetch : Option ℚ) (buyRes sellRes : Option Fill)
    (now : String) (saveOk : Bool) : BotState :=
  match fetch with
  | none => s
  | some price => (onPriceRun s price buyRes sellRes now saveOk).1

/-- Labels of the transitions of the bot: a price-monitor tick or one of the
chat commands. -/
inductive Label where
  | tick (price : ℚ) (buyRes sellRes : Option Fill) (now : String)
  | coin (sym : String)
  | decCmd (pct : ℚ)
  | incCmd (pct : ℚ)
  | amountCmd (amount : ℚ)
  | budgetCmd (amount : ℚ)
  | startCmd
  | stopCmd
  | resetL
deriving DecidableEq

/-- The labelled transition relation of the bot. A tick happens only while
`running` is true (the monitor loop's guard); exchange fill results carry
non-negative executed quantities and prices. -/
inductive Step : BotState → Label → BotState → Prop where
  | tick (s : BotState) (price : ℚ) (buyRes sellRes : Option Fill) (now : String)
      (hrun : s.running = true)
      (hfill : ∀ f, buyRes = some f → 0 ≤ f.qty ∧ 0 ≤ f.price) :
      Step s (Label.tick price buyRes sellRes now) (onPrice s price buyRes sellRes now).1
  | coin (s : BotState) (sym : String) : Step s (Label.coin sym) (setcoin s sym)
  | decCmd (s : BotState) (pct : ℚ) : Step s (Label.decCmd pct) (set_decrease s pct)
  | incCmd (s : BotState) (pct : ℚ) : Step s (Label.incCmd pct) (set_increase s pct)
  | amountCmd (s : BotState) (amount : ℚ) :
      Step s (Label.amountCmd amount) (set_amount s amount)
  | budgetCmd (s : BotState) (amount : ℚ) :
      Step s (Label.budgetCmd amount) (set_budget s amount)
  | startCmd (s : BotState) : Step s Label.startCmd (startBot s).1
  | stopCmd (s : BotState) : Step s Label.stopCmd (stopBot s).1
  | resetL (s : BotState) : Step s Label.resetL (resetCmd s)

/-- Reachability from the fresh initial state. -/
inductive Reach : BotState → Prop where
  | init : Reach initState
  | step {s : BotState} {l : Label} {s' : BotState} :
      Reach s → Step s l s' → Reach s'

/-- The state invariant maintained by every reachable state. -/
structure StateInv (s : BotState) : Prop where
  budget_nonneg : 0 ≤ s.remaining_budget
  budget_le : s.remaining_budget ≤ s.params.allocated_budget
  inc_pos : 0 < s.params.increase_pct
  tx_pos : 0 < s.params.tx_amount
  keys_nodup : (PosMap.keys s.positions).Nodup
  pos_wf : ∀ k pos, PosMap.get s.positions k = some pos → pos.symbol = k ∧ 0 ≤ pos.buy_price

/-- The JSON document handled by `save_state` / `load_state`: one key per
`BotState` field (the dataclasses are flattened by `asdict` and rebuilt by
`Parameters(**...)` / `Position(**...)`). Fields are `Option`al to model
keys that may be absent from an old or foreign document; `save_state`
always writes all of them. For `last_reference_price`, JSON `null` and an
absent key are both read back as `None` by `raw.get`, so both are `none`
here. -/
structure StateDoc where
  params : Option Parameters
  remaining_budget : Option ℚ
  positions : Option (List (String × Position))
  last_reference_price : Option ℚ
  running : Option Bool
deriving DecidableEq

/-- `save_state`: serialise every field of the state under its own key. -/
def save_state (s : BotState) : StateDoc :=
  { params := some s.params
    remaining_budget := some s.remaining_budget
    positions := some s.positions
    last_reference_price := s.last_reference_price
    running := some s.running }

/-- `load_state` on an existing document: rebuild the state, applying the
code's defaults for absent keys (dataclass defaults for `params`, the
freshly read `params.allocated_budget` for `remaining_budget`, the empty
dict for `positions`, `None` for `last_reference_price`, `False` for
`running`). -/
def load_state (d : StateDoc) : BotState :=
  let params := d.params.getD Parameters.default
  { params := params
    remaining_budget := d.remaining_budget.getD params.allocated_budget
    positions := d.positions.getD []
    last_reference_price := d.last_reference_price
    running := d.running.getD false }

/-- The fresh state after the `!start` command: running. -/
def stateRun : BotState := { initState with running := true }

/-- After one bootstrap tick at price 100: the reference price is seeded. -/
def stateSeeded : BotState := { stateRun with last_reference_price := some 100 }

/-- The position acquired in the example run: 1 unit filled at 97. -/
def examplePosition : Position :=
  { symbol := "BTCUSDT", quantity := 1, buy_price := 97, highest_price := 97,
    entry_time := "t1" }

/-- The state after a filled buy at 97 (price 97 is below the threshold
98 = 100 · (1 − 0.02), budget 500 ≥ 50): one open position, budget 450. -/
def exampleState : BotState :=
  { params := Parameters.default
    remaining_budget := 450
    positions := [("BTCUSDT", examplePosition)]
    last_reference_price := some 100
    running := true }

/-- `exampleState` after `!setcoin BTCUSDT`: the reference price is cleared
while the position stays open. -/
def orphanState : BotState :=
  { params := Parameters.default
    remaining_budget := 450
    positions := [("BTCUSDT", examplePosition)]
    last_reference_price := none
    running := true }

/-- A position that has moved into profit: bought at 100, high-water mark
110 (scenario of the trailing stop). -/
def highPosition : Position :=
  { symbol := "BTCUSDT", quantity := 1, buy_price := 100, highest_price := 110,
    entry_time := "t1" }

/-- A state holding `highPosition` with the trailing stop armed. -/
def highPosState : BotState :=
  { params := Parameters.default
    remaining_budget := 450
    positions := [("BTCUSDT", highPosition)]
    last_reference_price := some 100
    running := true }

/-! ## Theorems -/

/-- Lookup after dictionary assignment. -/
theorem PosMap.get_insert (m : PosMap) (k k1 : String) (v : Position) :
    PosMap.get (PosMap.insert m k v) k1 = if k = k1 then some v else PosMap.get m k1 := by
  induction m with
  | nil => by_cases h : k = k1 <;> simp [PosMap.insert, PosMap.get, h]
  | cons hd t ih =>
      obtain ⟨k2, v2⟩ := hd
      by_cases h2 : k2 = k
      · subst h2
        by_cases h1 : k2 = k1 <;> simp [PosMap.insert, PosMap.get, h1]
      · by_cases h1 : k2 = k1
        · subst h1
          have hk : ¬ k = k2 := fun h => h2 h.symm
          simp [PosMap.insert, PosMap.get, h2, hk]
        · simp [PosMap.insert, PosMap.get, h2, h1, ih]

/-- Membership in the keys after assignment. -/
theorem PosMap.mem_keys_insert (m : PosMap) (k a : String) (v : Position) :
    a ∈ PosMap.keys (PosMap.insert m k v) ↔ a ∈ PosMap.keys m ∨ a = k := by
  induction m with
  | nil => simp [PosMap.insert, PosMap.keys]
  | cons hd t ih =>
      obtain ⟨k2, v2⟩ := hd
      by_cases h2 : k2 = k
      · subst h2
        simp only [PosMap.insert, if_pos rfl]
        constructor
        · intro h; exact Or.inl h
        · intro h
          rcases h with h | h
          · exact h
          · subst h; simp [PosMap.keys]
      · simp only [PosMap.insert, if_neg h2, PosMap.keys, List.map_cons, List.mem_cons]
        rw [show (List.map Prod.fst (PosMap.insert t k v)) = PosMap.keys (PosMap.insert t k v) from rfl]
        rw [show (List.map Prod.fst t) = PosMap.keys t from rfl] at *
        constructor
        · intro h
          rcases h with h | h
          · exact Or.inl (Or.inl h)
          · rcases (ih.mp h) with h | h
            · exact Or.inl (Or.inr h)
            · exact Or.inr h
        · intro h
          rcases h with (h | h) | h
          · exact Or.inl h
          · exact Or.inr (ih.mpr (Or.inl h))
          · exact Or.inr (ih.mpr (Or.inr h))

/-- Assignment preserves uniqueness of keys. -/
theorem PosMap.keys_nodup_insert (m : PosMap) (k : String) (v : Position)
    (h : (PosMap.keys m).Nodup) : (PosMap.keys (PosMap.insert m k v)).Nodup := by
  induction m with
  | nil => simp [PosMap.insert, PosMap.keys]
  | cons hd t ih =>
      obtain ⟨k2, v2⟩ := hd
      simp only [PosMap.keys, List.map_cons, List.nodup_cons] at h
      by_cases h2 : k2 = k
      · subst h2
        simpa [PosMap.insert, PosMap.keys, List.nodup_cons] using h
      · simp only [PosMap.insert, if_neg h2, PosMap.keys, List.map_cons, List.nodup_cons]
        refine ⟨?_, ih h.2⟩
        intro hmem
        rcases (PosMap.mem_keys_insert t k k2 v).mp hmem with hm | hm
        · exact h.1 hm
        · exact h2 hm

/-- The keys after deletion form a sublist of the original keys. -/
theorem PosMap.keys_erase_sublist (m : PosMap) (k : String) :
    (PosMap.keys (PosMap.erase m k)).Sublist (PosMap.keys m) := by
  induction m with
  | nil => simp [PosMap.erase, PosMap.keys]
  | cons hd t ih =>
      obtain ⟨k2, v2⟩ := hd
      by_cases h2 : k2 = k
      · subst h2
        simp only [PosMap.erase, if_pos rfl, PosMap.keys, List.map_cons]
        exact List.sublist_cons_of_sublist _ (List.Sublist.refl _)
      · simp only [PosMap.erase, if_neg h2, PosMap.keys, List.map_cons]
        exact List.Sublist.cons₂ _ ih

/-- Deletion preserves uniqueness of keys. -/
theorem PosMap.keys_nodup_erase (m : PosMap) (k : String)
    (h : (PosMap.keys m).Nodup) : (PosMap.keys (PosMap.erase m k)).Nodup :=
  (PosMap.keys_erase_sublist m k).nodup h

/-- A key is in the keys iff lookup finds some value. -/
theorem PosMap.get_isSome_iff_mem_keys (m : PosMap) (k : String) :
    (PosMap.get m k).isSome ↔ k ∈ PosMap.keys m := by
  induction m with
  | nil => simp [PosMap.get, PosMap.keys]
  | cons hd t ih =>
      obtain ⟨k2, v2⟩ := hd
      by_cases h2 : k2 = k
      · subst h2; simp [PosMap.get, PosMap.keys]
      · simp only [PosMap.get, if_neg h2, PosMap.keys, List.map_cons, List.mem_cons, ih]
        constructor
        · intro h; exact Or.inr h
        · intro h
          rcases h with h | h
          · exact absurd h.symm h2
          · exact h

/-- Lookup after deletion, assuming unique keys. -/
theorem PosMap.get_erase (m : PosMap) (k k1 : String)
    (h : (PosMap.keys m).Nodup) :
    PosMap.get (PosMap.erase m k) k1 = if k = k1 then none else PosMap.get m k1 := by
  induction m with
  | nil => by_cases h1 : k = k1 <;> simp [PosMap.erase, PosMap.get, h1]
  | cons hd t ih =>
      obtain ⟨k2, v2⟩ := hd
      simp only [PosMap.keys, List.map_cons, List.nodup_cons] at h
      by_cases h2 : k2 = k
      · subst h2
        by_cases h1 : k2 = k1
        · subst h1
          have hred : PosMap.erase ((k2, v2) :: t) k2 = t := by simp [PosMap.erase]
          rw [hred, if_pos rfl]
          cases hg : PosMap.get t k2 with
          | none => rfl
          | some p =>
              exact absurd ((PosMap.get_isSome_iff_mem_keys t k2).mp (by simp [hg])) h.1
        · simp [PosMap.erase, PosMap.get, h1]
      · by_cases h1 : k2 = k1
        · subst h1
          have hk : ¬ k = k2 := fun hh => h2 hh.symm
          simp [PosMap.erase, PosMap.get, h2, hk]
        · simp [PosMap.erase, PosMap.get, h2, h1, ih h.2]

/-- How a tick can change the remaining budget: it is untouched unless a
buy order returned a fill with positive quantity, in which case it drops by
exactly `tx_amount` and the budget precondition held. -/
theorem onPrice_budget (s : BotState) (price : ℚ) (buyRes sellRes : Option Fill)
    (now : String) :
    (onPrice s price buyRes sellRes now).1.remaining_budget = s.remaining_budget ∨
    (∃ f, buyRes = some f ∧ 0 < f.qty ∧
      s.params.tx_amount ≤ s.remaining_budget ∧
      (onPrice s price buyRes sellRes now).1.remaining_budget
        = s.remaining_budget - s.params.tx_amount ∧
      (onPrice s price buyRes sellRes now).2 = some (BotAction.buy s.params.tx_amount)) := by
  unfold onPrice onPriceRun
  cases href : s.last_reference_price with
  | none => exact Or.inl rfl
  | some r =>
    cases hpos : PosMap.get s.positions s.params.symbol with
    | some pos =>
        simp only
        split
        · split
          · split <;> exact Or.inl rfl
          · split
            · split
              · split <;> exact Or.inl rfl
              · exact Or.inl rfl
            · exact Or.inl rfl
        · exact Or.inl rfl
    | none =>
        simp only
        split
        · split
          · split
            · exact Or.inl rfl
            · rename_i o fill
              split
              · rename_i hq
                exact Or.inr ⟨fill, rfl, hq, by assumption, rfl, rfl⟩
              · exact Or.inl rfl
          · exact Or.inl rfl
        · split <;> exact Or.inl rfl

/-- A tick never changes the configured parameters. -/
theorem onPrice_params (s : BotState) (price : ℚ) (buyRes sellRes : Option Fill)
    (now : String) (saveOk : Bool) :
    (onPriceRun s price buyRes sellRes now saveOk).1.params = s.params := by
  unfold onPriceRun
  simp only
  repeat' split
  all_goals rfl

/-- A tick never changes the running flag. -/
theorem onPrice_running (s : BotState) (price : ℚ) (buyRes sellRes : Option Fill)
    (now : String) (saveOk : Bool) :
    (onPriceRun s price buyRes sellRes now saveOk).1.running = s.running := by
  unfold onPriceRun
  simp only
  repeat' split
  all_goals rfl

/-- Eliminating an emitted buy intent: the tick had a set reference price,
no open position for the symbol, a price at or below the buy threshold and
a sufficient budget, and the intent's amount is `tx_amount`. -/
theorem onPrice_buy_elim (s : BotState) (price : ℚ) (buyRes sellRes : Option Fill)
    (now : String) (a : ℚ)
    (h : (onPrice s price buyRes sellRes now).2 = some (BotAction.buy a)) :
    a = s.params.tx_amount ∧ s.params.tx_amount ≤ s.remaining_budget ∧
    PosMap.get s.positions s.params.symbol = none ∧
    (∃ r, s.last_reference_price = some r ∧
      price ≤ r * (1 - s.params.decrease_pct)) := by
  unfold onPrice onPriceRun at h
  cases href : s.last_reference_price with
  | none => rw [href] at h; exact absurd h (by simp)
  | some r =>
    rw [href] at h
    cases hpos : PosMap.get s.positions s.params.symbol with
    | some pos =>
        rw [hpos] at h
        simp only at h
        split at h
        · split at h
          · split at h <;> exact absurd h (by simp)
          · split at h
            · split at h
              · split at h <;> exact absurd h (by simp)
              · exact absurd h (by simp)
            · exact absurd h (by simp)
        · exact absurd h (by simp)
    | none =>
        rw [hpos] at h
        simp only at h
        split at h
        · rename_i hthr
          split at h
          · rename_i hbud
            split at h
            · exact ⟨by simpa using h.symm, hbud, rfl, r, rfl, hthr⟩
            · split at h
              · exact ⟨by simpa using h.symm, hbud, rfl, r, rfl, hthr⟩
              · exact ⟨by simpa using h.symm, hbud, rfl, r, rfl, hthr⟩
          · exact absurd h (by simp)
        · split at h <;> exact absurd h (by simp)

/-- Eliminating an emitted sell intent: the reference price was set, a
position for the symbol was open, the quantity sold is the position's full
quantity, and either the profit target was reached or the trailing stop
fired with the loss guard `buy_price ≤ price` satisfied. -/
theorem onPrice_sell_elim (s : BotState) (price : ℚ) (buyRes sellRes : Option Fill)
    (now : String) (q : ℚ)
    (h : (onPrice s price buyRes sellRes now).2 = some (BotAction.sell q)) :
    ∃ r pos, s.last_reference_price = some r ∧
      PosMap.get s.positions s.params.symbol = some pos ∧ q = pos.quantity ∧
      (pos.buy_price * (1 + s.params.increase_pct) ≤ price ∨
       (¬ pos.buy_price * (1 + s.params.increase_pct) ≤ price ∧
        pos.buy_price < max pos.highest_price price ∧
        price ≤ max pos.highest_price price * (1 - s.params.decrease_pct) ∧
        pos.buy_price ≤ price)) := by
  unfold onPrice onPriceRun at h
  cases href : s.last_reference_price with
  | none => rw [href] at h; exact absurd h (by simp)
  | some r =>
    rw [href] at h
    cases hpos : PosMap.get s.positions s.params.symbol with
    | none =>
        rw [hpos] at h
        simp only at h
        split at h
        · split at h
          · split at h
            · exact absurd h (by simp)
            · split at h <;> exact absurd h (by simp)
          · exact absurd h (by simp)
        · split at h <;> exact absurd h (by simp)
    | some pos =>
        rw [hpos] at h
        simp only at h
        split at h
        · split at h
          · rename_i htgt
            split at h
            · exact ⟨r, pos, rfl, rfl, by simpa using h.symm, Or.inl htgt⟩
            · exact ⟨r, pos, rfl, rfl, by simpa using h.symm, Or.inl htgt⟩
          · rename_i htgt
            split at h
            · rename_i harm
              split at h
              · rename_i hcond
                split at h
                · exact ⟨r, pos, rfl, rfl, by simpa using h.symm,
                    Or.inr ⟨htgt, harm, hcond.1, hcond.2⟩⟩
                · exact ⟨r, pos, rfl, rfl, by simpa using h.symm,
                    Or.inr ⟨htgt, harm, hcond.1, hcond.2⟩⟩
              · exact absurd h (by simp)
            · exact absurd h (by simp)
        · rename_i hsave
          exact absurd trivial hsave

/-- How a tick can change the positions dictionary: untouched, or a new
position inserted on a positive-quantity buy fill, or (with a position
open) the high-water-mark update, possibly followed by the deletion of
`pos.symbol` when a sell order came back non-`None`. -/
theorem onPrice_positions_cases (s : BotState) (price : ℚ)
    (buyRes sellRes : Option Fill) (now : String) :
    (onPrice s price buyRes sellRes now).1.positions = s.positions ∨
    (∃ f, buyRes = some f ∧ 0 < f.qty ∧
      PosMap.get s.positions s.params.symbol = none ∧
      (onPrice s price buyRes sellRes now).1.positions
        = PosMap.insert s.positions s.params.symbol
            { symbol := s.params.symbol, quantity := f.qty, buy_price := f.price,
              highest_price := f.price, entry_time := now }) ∨
    (∃ pos, PosMap.get s.positions s.params.symbol = some pos ∧
      ((onPrice s price buyRes sellRes now).1.positions
          = PosMap.insert s.positions s.params.symbol
              { pos with highest_price := max pos.highest_price price } ∨
       (∃ f, sellRes = some f ∧
         (onPrice s price buyRes sellRes now).1.positions
           = PosMap.erase (PosMap.insert s.positions s.params.symbol
               { pos with highest_price := max pos.highest_price price })
               pos.symbol))) := by
  unfold onPrice onPriceRun
  cases href : s.last_reference_price with
  | none => exact Or.inl rfl
  | some r =>
    cases hpos : PosMap.get s.positions s.params.symbol with
    | none =>
        simp only
        split
        · split
          · split
            · exact Or.inl rfl
            · rename_i o fill
              split
              · rename_i hq
                exact Or.inr (Or.inl ⟨fill, rfl, hq, by trivial, rfl⟩)
              · exact Or.inl rfl
          · exact Or.inl rfl
        · split <;> exact Or.inl rfl
    | some pos =>
        simp only
        split
        · split
          · split
            · exact Or.inr (Or.inr ⟨pos, by trivial, Or.inl rfl⟩)
            · rename_i o f
              exact Or.inr (Or.inr ⟨pos, by trivial, Or.inr ⟨f, rfl, rfl⟩⟩)
          · split
            · split
              · split
                · exact Or.inr (Or.inr ⟨pos, by trivial, Or.inl rfl⟩)
                · rename_i o f
                  exact Or.inr (Or.inr ⟨pos, by trivial, Or.inr ⟨f, rfl, rfl⟩⟩)
              · exact Or.inr (Or.inr ⟨pos, by trivial, Or.inl rfl⟩)
            · exact Or.inr (Or.inr ⟨pos, by trivial, Or.inl rfl⟩)
        · exact Or.inr (Or.inr ⟨pos, by trivial, Or.inl rfl⟩)

/-- The invariant holds in the fresh initial state. -/
theorem stateInv_init : StateInv initState := by
  refine ⟨by norm_num [initState, Parameters.default],
    by norm_num [initState, Parameters.default],
    by norm_num [initState, Parameters.default],
    by norm_num [initState, Parameters.default],
    by simp [initState, PosMap.keys], ?_⟩
  intro k pos h
  simp [initState, PosMap.get] at h

/-- A tick with a well-formed fill result preserves the invariant. -/
theorem stateInv_tick (s : BotState) (price : ℚ) (buyRes sellRes : Option Fill)
    (now : String)
    (hfill : ∀ f, buyRes = some f → 0 ≤ f.qty ∧ 0 ≤ f.price)
    (hs : StateInv s) : StateInv (onPrice s price buyRes sellRes now).1 := by
  have hparams : (onPrice s price buyRes sellRes now).1.params = s.params :=
    onPrice_params s price buyRes sellRes now true
  have hbud := onPrice_budget s price buyRes sellRes now
  have hposn := onPrice_positions_cases s price buyRes sellRes now
  constructor
  · rcases hbud with h | ⟨f, _, _, hle, heq, _⟩
    · rw [h]; exact hs.budget_nonneg
    · rw [heq]; exact sub_nonneg.mpr hle
  · rw [hparams]
    rcases hbud with h | ⟨f, _, _, hle, heq, _⟩
    · rw [h]; exact hs.budget_le
    · rw [heq]
      have := hs.tx_pos
      have := hs.budget_le
      linarith
  · rw [hparams]; exact hs.inc_pos
  · rw [hparams]; exact hs.tx_pos
  · rcases hposn with h | ⟨f, hb, hq, hnone, heq⟩ | ⟨pos0, hget, heq | ⟨f, hsr, heq⟩⟩
    · rw [h]; exact hs.keys_nodup
    · rw [heq]; exact PosMap.keys_nodup_insert _ _ _ hs.keys_nodup
    · rw [heq]; exact PosMap.keys_nodup_insert _ _ _ hs.keys_nodup
    · rw [heq]
      exact PosMap.keys_nodup_erase _ _ (PosMap.keys_nodup_insert _ _ _ hs.keys_nodup)
  · rcases hposn with h | ⟨f, hb, hq, hnone, heq⟩ | ⟨pos0, hget, heq | ⟨f, hsr, heq⟩⟩
    · rw [h]; exact hs.pos_wf
    · intro k pos h
      rw [heq, PosMap.get_insert] at h
      split at h
      · rename_i hk
        cases h
        exact ⟨hk, (hfill f hb).2⟩
      · exact hs.pos_wf k pos h
    · intro k pos h
      rw [heq, PosMap.get_insert] at h
      split at h
      · rename_i hk
        cases h
        exact ⟨by rw [← hk]; exact (hs.pos_wf _ _ hget).1, (hs.pos_wf _ _ hget).2⟩
      · exact hs.pos_wf k pos h
    · intro k pos h
      rw [heq, PosMap.get_erase _ _ _ (PosMap.keys_nodup_insert _ _ _ hs.keys_nodup)] at h
      split at h
      · exact absurd h (by simp)
      · rw [PosMap.get_insert] at h
        split at h
        · rename_i hk
          cases h
          exact ⟨by rw [← hk]; exact (hs.pos_wf _ _ hget).1, (hs.pos_wf _ _ hget).2⟩
        · exact hs.pos_wf k pos h

/-- Every transition preserves the invariant. -/
theorem stateInv_step (s : BotState) (l : Label) (s' : BotState)
    (hstep : Step s l s') (hs : StateInv s) : StateInv s' := by
  cases hstep with
  | tick price buyRes sellRes now hrun hfill =>
      exact stateInv_tick s price buyRes sellRes now hfill hs
  | coin sym =>
      exact ⟨hs.budget_nonneg, hs.budget_le, hs.inc_pos, hs.tx_pos, hs.keys_nodup, hs.pos_wf⟩
  | decCmd pct =>
      unfold set_decrease
      split
      · exact hs
      · exact ⟨hs.budget_nonneg, hs.budget_le, hs.inc_pos, hs.tx_pos, hs.keys_nodup, hs.pos_wf⟩
  | incCmd pct =>
      unfold set_increase
      split
      · exact hs
      · rename_i hrange
        push_neg at hrange
        exact ⟨hs.budget_nonneg, hs.budget_le, hrange.1, hs.tx_pos, hs.keys_nodup, hs.pos_wf⟩
  | amountCmd amount =>
      unfold set_amount
      split
      · exact hs
      · rename_i hpos
        push_neg at hpos
        exact ⟨hs.budget_nonneg, hs.budget_le, hs.inc_pos, hpos, hs.keys_nodup, hs.pos_wf⟩
  | budgetCmd amount =>
      unfold set_budget
      split
      · exact hs
      · rename_i hpos
        push_neg at hpos
        exact ⟨hpos.le, le_refl _, hs.inc_pos, hs.tx_pos, hs.keys_nodup, hs.pos_wf⟩
  | startCmd =>
      unfold startBot
      split
      · exact hs
      · exact ⟨hs.budget_nonneg, hs.budget_le, hs.inc_pos, hs.tx_pos, hs.keys_nodup, hs.pos_wf⟩
  | stopCmd =>
      unfold stopBot
      split
      · exact ⟨hs.budget_nonneg, hs.budget_le, hs.inc_pos, hs.tx_pos, hs.keys_nodup, hs.pos_wf⟩
      · exact hs
  | resetL =>
      refine ⟨by norm_num [resetCmd, Parameters.default],
        by norm_num [resetCmd, Parameters.default],
        by norm_num [resetCmd, Parameters.default],
        by norm_num [resetCmd, Parameters.default],
        by simp [resetCmd, PosMap.keys], ?_⟩
      intro k pos h
      simp [resetCmd, PosMap.get] at h

/-- Every reachable state satisfies the invariant. -/
theorem reach_inv (s : BotState) (hs : Reach s) : StateInv s := by
  induction hs with
  | init => exact stateInv_init
  | step hr hstep ih => exact stateInv_step _ _ _ hstep ih

/-- The state after `!start` is reachable. -/
theorem reach_stateRun : Reach stateRun := by
  have h : (startBot initState).1 = stateRun := by
    simp [startBot, initState, stateRun]
  exact h ▸ Reach.step Reach.init (Step.startCmd initState)

/-- The state after the bootstrap tick at 100 is reachable. -/
theorem reach_stateSeeded : Reach stateSeeded := by
  have h : (onPrice stateRun 100 none none "t0").1 = stateSeeded := by
    simp [onPrice, onPriceRun, stateRun, initState, stateSeeded]
  have hstep : Step stateRun (Label.tick 100 none none "t0")
      (onPrice stateRun 100 none none "t0").1 :=
    Step.tick stateRun 100 none none "t0" rfl (by intro f hf; cases hf)
  exact h ▸ Reach.step reach_stateRun hstep

/-- The example state with one open position is reachable: a buy at 97
below the threshold 98, filled with 1 unit at 97. -/
theorem reach_exampleState : Reach exampleState := by
  have h : (onPrice stateSeeded 97 (some ⟨1, 97⟩) none "t1").1 = exampleState := by
    norm_num [onPrice, onPriceRun, stateSeeded, stateRun, initState, exampleState,
      examplePosition, Parameters.default, PosMap.get, PosMap.insert]
  have hstep : Step stateSeeded (Label.tick 97 (some ⟨1, 97⟩) none "t1")
      (onPrice stateSeeded 97 (some ⟨1, 97⟩) none "t1").1 :=
    Step.tick stateSeeded 97 (some ⟨1, 97⟩) none "t1" rfl
      (by intro f hf; cases hf; exact ⟨by norm_num, by norm_num⟩)
  exact h ▸ Reach.step reach_stateSeeded hstep

/-- Claim C1: for every reachable state with an open position for the
active symbol and every observed price, no sell intent is ever emitted at
a price below the position's buy price: the profit-target sell requires
`price ≥ buy_price * (1 + increase_pct)` with `increase_pct > 0`, and the
trailing-stop sell additionally requires `price ≥ buy_price`. -/
theorem claim_C1_no_sell_below_buy_price (s : BotState) (hs : Reach s)
    (price : ℚ) (buyRes sellRes : Option Fill) (now : String) (q : ℚ)
    (pos : Position)
    (hsell : (onPrice s price buyRes sellRes now).2 = some (BotAction.sell q))
    (hpos : PosMap.get s.positions s.params.symbol = some pos) :
    pos.buy_price ≤ price := by
  obtain ⟨r, pos', href, hget, hq, hcond⟩ :=
    onPrice_sell_elim s price buyRes sellRes now q hsell
  rw [hpos] at hget
  have hpp : pos = pos' := Option.some.inj hget
  subst hpp
  have hinv := reach_inv s hs
  have hbuy : 0 ≤ pos.buy_price := (hinv.pos_wf _ _ hpos).2
  have hinc : 0 < s.params.increase_pct := hinv.inc_pos
  rcases hcond with htgt | ⟨_, _, _, hguard⟩
  · have hexp : pos.buy_price * (1 + s.params.increase_pct)
        = pos.buy_price + pos.buy_price * s.params.increase_pct := by ring
    have hnn : 0 ≤ pos.buy_price * s.params.increase_pct :=
      mul_nonneg hbuy hinc.le
    linarith
  · exact hguard

/-- Witness for C1 at the example state: the profit-target sell at price
103 is at or above the buy price 97. -/
theorem claim_C1_witness : examplePosition.buy_price ≤ (103 : ℚ) :=
  claim_C1_no_sell_below_buy_price exampleState reach_exampleState 103 none
    (some ⟨1, 103⟩) "t2" 1 examplePosition
    (by norm_num [onPrice, onPriceRun, exampleState, examplePosition,
      Parameters.default, PosMap.get, PosMap.insert, PosMap.erase])
    (by norm_num [exampleState, examplePosition, Parameters.default, PosMap.get])

/-- Claim C2 (amended): every reachable state keeps
`0 ≤ remaining_budget ≤ allocated_budget`; along a transition the remaining
budget strictly decreases only on a tick whose buy order returned a
positive-quantity fill (then by exactly `tx_amount`, and only when
`tx_amount ≤ remaining_budget` held) or on an explicit `set_budget` /
`reset` command; and a buy intent is only emitted for exactly `tx_amount`
when the remaining budget suffices. -/
theorem claim_C2_budget (s : BotState) (hs : Reach s) :
    (0 ≤ s.remaining_budget ∧ s.remaining_budget ≤ s.params.allocated_budget) ∧
    (∀ l s', Step s l s' → s'.remaining_budget < s.remaining_budget →
      (∃ price f sellRes now, l = Label.tick price (some f) sellRes now ∧
        0 < f.qty ∧
        s'.remaining_budget = s.remaining_budget - s.params.tx_amount ∧
        s.params.tx_amount ≤ s.remaining_budget) ∨
      (∃ a, l = Label.budgetCmd a) ∨ l = Label.resetL) ∧
    (∀ price buyRes sellRes now a,
      (onPrice s price buyRes sellRes now).2 = some (BotAction.buy a) →
      a = s.params.tx_amount ∧ s.params.tx_amount ≤ s.remaining_budget) := by
  have hinv := reach_inv s hs
  refine ⟨⟨hinv.budget_nonneg, hinv.budget_le⟩, ?_, ?_⟩
  · intro l s' hstep hlt
    cases hstep with
    | tick price buyRes sellRes now hrun hfill =>
        rcases onPrice_budget s price buyRes sellRes now with h | ⟨f, hb, hq, hle, heq, _⟩
        · rw [h] at hlt; exact absurd hlt (lt_irrefl _)
        · exact Or.inl ⟨price, f, sellRes, now, by rw [hb], hq, heq, hle⟩
    | coin sym => exact absurd hlt (lt_irrefl _)
    | decCmd pct =>
        have h : (set_decrease s pct).remaining_budget = s.remaining_budget := by
          unfold set_decrease; split <;> rfl
        rw [h] at hlt; exact absurd hlt (lt_irrefl _)
    | incCmd pct =>
        have h : (set_increase s pct).remaining_budget = s.remaining_budget := by
          unfold set_increase; split <;> rfl
        rw [h] at hlt; exact absurd hlt (lt_irrefl _)
    | amountCmd amount =>
        have h : (set_amount s amount).remaining_budget = s.remaining_budget := by
          unfold set_amount; split <;> rfl
        rw [h] at hlt; exact absurd hlt (lt_irrefl _)
    | budgetCmd amount => exact Or.inr (Or.inl ⟨amount, rfl⟩)
    | startCmd =>
        have h : (startBot s).1.remaining_budget = s.remaining_budget := by
          unfold startBot; split <;> rfl
        rw [h] at hlt; exact absurd hlt (lt_irrefl _)
    | stopCmd =>
        have h : (stopBot s).1.remaining_budget = s.remaining_budget := by
          unfold stopBot; split <;> rfl
        rw [h] at hlt; exact absurd hlt (lt_irrefl _)
    | resetL => exact Or.inr (Or.inr rfl)
  · intro price buyRes sellRes now a h
    obtain ⟨ha, hle, -, -⟩ := onPrice_buy_elim s price buyRes sellRes now a h
    exact ⟨ha, hle⟩

/-- Counterexample to C2 as stated: along reachable transitions the
remaining budget can also decrease on a `set_budget` command (here from
500 to 100), which is not a buy fill. -/
theorem claim_C2_counterexample :
    ¬ (∀ (s : BotState) (l : Label) (s' : BotState), Reach s → Step s l s' →
        s'.remaining_budget < s.remaining_budget →
        ∃ price f sellRes now, l = Label.tick price (some f) sellRes now ∧
          0 < f.qty ∧
          s.remaining_budget - s'.remaining_budget = s.params.tx_amount) := by
  intro h
  have hstep : Step initState (Label.budgetCmd 100) (set_budget initState 100) :=
    Step.budgetCmd initState 100
  have hlt : (set_budget initState 100).remaining_budget
      < initState.remaining_budget := by
    norm_num [set_budget, initState, Parameters.default]
  obtain ⟨price, f, sellRes, now, hl, -, -⟩ := h _ _ _ Reach.init hstep hlt
  cases hl

/-- Witness for C2 at the reachable example state. -/
theorem claim_C2_witness :
    0 ≤ exampleState.remaining_budget ∧
    exampleState.remaining_budget ≤ exampleState.params.allocated_budget :=
  (claim_C2_budget exampleState reach_exampleState).1

/-- Claim C3 (amended): a failed (`None`) buy order or a buy fill without
positive quantity leaves the whole state untouched, and a failed (`None`)
sell order leaves the budget and reference price untouched and the
positions dictionary changed only by the unconditional high-water-mark
update — so the same trigger can re-fire on the next tick. (A sell order
that returns non-`None` is applied regardless of its executed quantity:
see the counterexample.) -/
theorem claim_C3_failed_fill (s : BotState) (price : ℚ) (buyRes sellRes : Option Fill)
    (now : String) :
    (∀ a, (onPrice s price buyRes sellRes now).2 = some (BotAction.buy a) →
      (buyRes = none ∨ ∃ f, buyRes = some f ∧ ¬ 0 < f.qty) →
      (onPrice s price buyRes sellRes now).1 = s) ∧
    (∀ q, (onPrice s price buyRes sellRes now).2 = some (BotAction.sell q) →
      sellRes = none →
      ((onPrice s price buyRes sellRes now).1.remaining_budget = s.remaining_budget ∧
       (onPrice s price buyRes sellRes now).1.last_reference_price
         = s.last_reference_price ∧
       ∃ pos, PosMap.get s.positions s.params.symbol = some pos ∧
         (onPrice s price buyRes sellRes now).1.positions
           = PosMap.insert s.positions s.params.symbol
               { pos with highest_price := max pos.highest_price price })) := by
  constructor
  · intro a ha hfail
    obtain ⟨-, hbud, hposnone, r, href, hthr⟩ :=
      onPrice_buy_elim s price buyRes sellRes now a ha
    unfold onPrice onPriceRun
    rw [href, hposnone]
    simp only
    rw [if_pos hthr, if_pos hbud]
    rcases hfail with hb | ⟨f, hb, hq⟩
    · rw [hb]
    · rw [hb]
      simp only
      rw [if_neg hq]
  · intro q hq hsr
    subst hsr
    obtain ⟨r, pos, href, hget, -, -⟩ := onPrice_sell_elim s price buyRes none now q hq
    have hres : (onPrice s price buyRes none now).1
        = { s with positions := (PosMap.insert s.positions s.params.symbol
              { pos with highest_price := max pos.highest_price price }) } := by
      unfold onPrice onPriceRun
      rw [href, hget]
      simp only
      split
      · split
        · rfl
        · split
          · split
            · rfl
            · rfl
          · rfl
      · rename_i hsave
        exact absurd trivial hsave
    rw [hres]
    exact ⟨rfl, rfl, pos, hget, rfl⟩

/-- Counterexample to C3 as stated: a profit-target sell at 104 whose order
comes back with zero executed quantity still removes the position and
reseeds the reference price — a zero-quantity sell fill does mutate state. -/
theorem claim_C3_counterexample :
    (onPrice exampleState 104 none (some ⟨0, 104⟩) "t2").2
        = some (BotAction.sell 1) ∧
    PosMap.get exampleState.positions exampleState.params.symbol
        = some examplePosition ∧
    PosMap.get (onPrice exampleState 104 none (some ⟨0, 104⟩) "t2").1.positions
        exampleState.params.symbol = none ∧
    (onPrice exampleState 104 none (some ⟨0, 104⟩) "t2").1.last_reference_price
        = some 104 ∧
    exampleState.last_reference_price = some 100 := by
  norm_num [onPrice, onPriceRun, exampleState, examplePosition, Parameters.default,
    PosMap.get, PosMap.insert, PosMap.erase]

/-- Witness for C3 at the example state: a failed sell order at 104 leaves
budget and reference price unchanged and only updates the high-water mark. -/
theorem claim_C3_witness :
    (onPrice exampleState 104 none none "t2").1.remaining_budget
        = exampleState.remaining_budget ∧
    (onPrice exampleState 104 none none "t2").1.last_reference_price
        = exampleState.last_reference_price ∧
    ∃ pos, PosMap.get exampleState.positions exampleState.params.symbol = some pos ∧
      (onPrice exampleState 104 none none "t2").1.positions
        = PosMap.insert exampleState.positions exampleState.params.symbol
            { pos with highest_price := max pos.highest_price 104 } :=
  (claim_C3_failed_fill exampleState 104 none none "t2").2 1
    (by norm_num [onPrice, onPriceRun, exampleState, examplePosition,
      Parameters.default, PosMap.get, PosMap.insert]) rfl

/-- The orphaned-position state is reachable: `!setcoin BTCUSDT` on the
example state clears the reference price but keeps the open position. -/
theorem reach_orphanState : Reach orphanState := by
  have h : setcoin exampleState "BTCUSDT" = orphanState := by
    simp only [setcoin, exampleState, orphanState, Parameters.default]
    norm_num
    decide
  exact h ▸ Reach.step reach_exampleState (Step.coin exampleState "BTCUSDT")

/-- Claim C4 (amended): with the reference price set, a tick on an open
position always applies the high-water-mark update (the position either
remains, updated to `max(highest_price, price)`, or is closed by a sell
fill); but when the reference price is unset the bootstrap step fires even
though a position is open — the tick only seeds the reference price and
skips the high-water-mark update. -/
theorem claim_C4_high_water (s : BotState) (price : ℚ) (buyRes sellRes : Option Fill)
    (now : String) (pos : Position)
    (hpos : PosMap.get s.positions s.params.symbol = some pos)
    (hnd : (PosMap.keys s.positions).Nodup) :
    (∀ r, s.last_reference_price = some r →
      (PosMap.get (onPrice s price buyRes sellRes now).1.positions s.params.symbol
          = none ∨
       PosMap.get (onPrice s price buyRes sellRes now).1.positions s.params.symbol
          = some { pos with highest_price := max pos.highest_price price })) ∧
    (s.last_reference_price = none →
      (onPrice s price buyRes sellRes now).1
          = { s with last_reference_price := some price } ∧
      (onPrice s price buyRes sellRes now).2 = none) := by
  constructor
  · intro r href
    unfold onPrice onPriceRun
    rw [href, hpos]
    simp only
    split
    · split
      · split
        · dsimp only
          rw [PosMap.get_insert, if_pos rfl]
          exact Or.inr rfl
        · dsimp only
          by_cases hks : pos.symbol = s.params.symbol
          · rw [PosMap.get_erase _ _ _ (PosMap.keys_nodup_insert _ _ _ hnd),
              if_pos hks]
            exact Or.inl rfl
          · rw [PosMap.get_erase _ _ _ (PosMap.keys_nodup_insert _ _ _ hnd),
              if_neg hks, PosMap.get_insert, if_pos rfl]
            exact Or.inr rfl
      · split
        · split
          · split
            · dsimp only
              rw [PosMap.get_insert, if_pos rfl]
              exact Or.inr rfl
            · dsimp only
              by_cases hks : pos.symbol = s.params.symbol
              · rw [PosMap.get_erase _ _ _ (PosMap.keys_nodup_insert _ _ _ hnd),
                  if_pos hks]
                exact Or.inl rfl
              · rw [PosMap.get_erase _ _ _ (PosMap.keys_nodup_insert _ _ _ hnd),
                  if_neg hks, PosMap.get_insert, if_pos rfl]
                exact Or.inr rfl
          · dsimp only
            rw [PosMap.get_insert, if_pos rfl]
            exact Or.inr rfl
        · dsimp only
          rw [PosMap.get_insert, if_pos rfl]
          exact Or.inr rfl
    · rename_i hsave
      exact absurd trivial hsave
  · intro href
    unfold onPrice onPriceRun
    rw [href]
    exact ⟨rfl, rfl⟩

/-- Counterexample to C4 as stated: in the reachable state produced by
`!setcoin BTCUSDT` while the position is open (reference price cleared),
the next tick at 200 bootstraps the reference price and leaves the open
position's high-water mark at 97 instead of updating it to
`max(97, 200) = 200`. -/
theorem claim_C4_counterexample :
    Reach orphanState ∧
    orphanState.last_reference_price = none ∧
    PosMap.get orphanState.positions orphanState.params.symbol
        = some examplePosition ∧
    PosMap.get (onPrice orphanState 200 none none "t2").1.positions
        orphanState.params.symbol = some examplePosition ∧
    examplePosition.highest_price = 97 ∧
    max examplePosition.highest_price 200 = 200 ∧
    (onPrice orphanState 200 none none "t2").1.last_reference_price = some 200 := by
  refine ⟨reach_orphanState, rfl, ?_, ?_, rfl, ?_, rfl⟩
  · norm_num [orphanState, Parameters.default, PosMap.get]
  · norm_num [onPrice, onPriceRun, orphanState, Parameters.default, PosMap.get]
  · rw [show examplePosition.highest_price = 97 from rfl]
    exact max_eq_right (by norm_num)

/-- Witness for C4 at the example state: a tick at 104 (with the failed
sell order) leaves the position in place with its high-water mark raised
to `max(97, 104)`. -/
theorem claim_C4_witness :
    PosMap.get (onPrice exampleState 104 none none "t2").1.positions
        exampleState.params.symbol = none ∨
    PosMap.get (onPrice exampleState 104 none none "t2").1.positions
        exampleState.params.symbol
      = some { examplePosition with
          highest_price := max examplePosition.highest_price 104 } :=
  (claim_C4_high_water exampleState 104 none none "t2" examplePosition
    (by norm_num [exampleState, examplePosition, Parameters.default, PosMap.get])
    (by simp [exampleState, PosMap.keys])).1 100
    (by norm_num [exampleState])

/-- Claim C5: every reachable state has at most one position per symbol
(the dictionary's keys are unique), and a buy intent is only ever emitted
when no position is stored under the active symbol. -/
theorem claim_C5_single_position (s : BotState) (hs : Reach s) :
    (PosMap.keys s.positions).Nodup ∧
    (∀ price buyRes sellRes now a,
      (onPrice s price buyRes sellRes now).2 = some (BotAction.buy a) →
      PosMap.get s.positions s.params.symbol = none) :=
  ⟨(reach_inv s hs).keys_nodup,
   fun price buyRes sellRes now a h =>
     (onPrice_buy_elim s price buyRes sellRes now a h).2.2.1⟩

/-- Witness for C5 at the reachable example state. -/
theorem claim_C5_witness : (PosMap.keys exampleState.positions).Nodup :=
  (claim_C5_single_position exampleState reach_exampleState).1

/-- Claim C6: on an open position whose profit target is not reached, a
sell of the full quantity is emitted exactly when the trailing stop is
armed (`highest_price > buy_price` after the high-water update), the price
is at or below `highest_price * (1 - decrease_pct)`, and the loss guard
`price ≥ buy_price` holds; if the stop is hit but the price is below the
buy price, no sell happens and the position is held; and on a non-`None`
sell result the position is removed and the reference price reseeded to
the observed price. -/
theorem claim_C6_trailing_stop (s : BotState) (price : ℚ) (buyRes sellRes : Option Fill)
    (now : String) (r : ℚ) (pos : Position)
    (href : s.last_reference_price = some r)
    (hget : PosMap.get s.positions s.params.symbol = some pos)
    (hsym : pos.symbol = s.params.symbol)
    (hnd : (PosMap.keys s.positions).Nodup)
    (htgt : ¬ pos.buy_price * (1 + s.params.increase_pct) ≤ price) :
    ((onPrice s price buyRes sellRes now).2 = some (BotAction.sell pos.quantity) ↔
      (pos.buy_price < max pos.highest_price price ∧
       (price ≤ max pos.highest_price price * (1 - s.params.decrease_pct) ∧
        pos.buy_price ≤ price))) ∧
    ((price ≤ max pos.highest_price price * (1 - s.params.decrease_pct) ∧
      price < pos.buy_price) →
      ((onPrice s price buyRes sellRes now).2 = none ∧
       PosMap.get (onPrice s price buyRes sellRes now).1.positions s.params.symbol
         = some { pos with highest_price := max pos.highest_price price })) ∧
    (∀ f, sellRes = some f →
      (onPrice s price buyRes sellRes now).2 = some (BotAction.sell pos.quantity) →
      (PosMap.get (onPrice s price buyRes sellRes now).1.positions s.params.symbol
          = none ∧
       (onPrice s price buyRes sellRes now).1.last_reference_price = some price)) := by
  have hact : (onPrice s price buyRes sellRes now).2
      = if pos.buy_price < max pos.highest_price price ∧
           (price ≤ max pos.highest_price price * (1 - s.params.decrease_pct) ∧
            pos.buy_price ≤ price)
        then some (BotAction.sell pos.quantity) else none := by
    unfold onPrice onPriceRun
    rw [href, hget]
    simp only
    rw [if_pos trivial, if_neg htgt]
    by_cases harm : pos.buy_price < max pos.highest_price price
    · rw [if_pos harm]
      by_cases hcond : price ≤ max pos.highest_price price * (1 - s.params.decrease_pct) ∧
          pos.buy_price ≤ price
      · rw [if_pos hcond, if_pos ⟨harm, hcond⟩]
        cases sellRes <;> rfl
      · rw [if_neg hcond, if_neg (fun hc => hcond hc.2)]
    · rw [if_neg harm, if_neg (fun hc => harm hc.1)]
  have hhold : ¬ (pos.buy_price < max pos.highest_price price ∧
      (price ≤ max pos.highest_price price * (1 - s.params.decrease_pct) ∧
       pos.buy_price ≤ price)) →
      (onPrice s price buyRes sellRes now).1
        = { s with positions := (PosMap.insert s.positions s.params.symbol
            { pos with highest_price := max pos.highest_price price }) } := by
    intro hc
    unfold onPrice onPriceRun
    rw [href, hget]
    simp only
    rw [if_pos trivial, if_neg htgt]
    by_cases harm : pos.buy_price < max pos.highest_price price
    · rw [if_pos harm, if_neg (fun hcond => hc ⟨harm, hcond⟩)]
    · rw [if_neg harm]
  have hsellst : ∀ f, sellRes = some f →
      (pos.buy_price < max pos.highest_price price ∧
       (price ≤ max pos.highest_price price * (1 - s.params.decrease_pct) ∧
        pos.buy_price ≤ price)) →
      (onPrice s price buyRes sellRes now).1
        = { s with
            positions := PosMap.erase (PosMap.insert s.positions s.params.symbol
              { pos with highest_price := max pos.highest_price price }) pos.symbol,
            last_reference_price := some price } := by
    intro f hf hc
    subst hf
    unfold onPrice onPriceRun
    rw [href, hget]
    simp only
    rw [if_pos trivial, if_neg htgt, if_pos hc.1, if_pos hc.2]
  refine ⟨?_, ?_, ?_⟩
  · constructor
    · intro hsell
      by_cases hc : pos.buy_price < max pos.highest_price price ∧
          (price ≤ max pos.highest_price price * (1 - s.params.decrease_pct) ∧
           pos.buy_price ≤ price)
      · exact hc
      · rw [hact, if_neg hc] at hsell
        cases hsell
    · intro hc
      rw [hact, if_pos hc]
  · rintro ⟨hstop, hlt⟩
    have hc : ¬ (pos.buy_price < max pos.highest_price price ∧
        (price ≤ max pos.highest_price price * (1 - s.params.decrease_pct) ∧
         pos.buy_price ≤ price)) :=
      fun c => absurd c.2.2 (not_le.mpr hlt)
    refine ⟨by rw [hact, if_neg hc], ?_⟩
    rw [hhold hc]
    dsimp only
    rw [PosMap.get_insert, if_pos rfl]
  · intro f hf hsell
    by_cases hc : pos.buy_price < max pos.highest_price price ∧
        (price ≤ max pos.highest_price price * (1 - s.params.decrease_pct) ∧
         pos.buy_price ≤ price)
    · rw [hsellst f hf hc]
      dsimp only
      rw [hsym, PosMap.get_erase _ _ _ (PosMap.keys_nodup_insert _ _ _ hnd),
        if_pos rfl]
      exact ⟨rfl, rfl⟩
    · rw [hact, if_neg hc] at hsell
      cases hsell

/-- Witness for C6: buy 100, high-water mark 110, stop 107.8; at price 102
(profit target 103 not reached) the trailing stop fires with the loss
guard satisfied, and the non-`None` sell result closes the position and
reseeds the reference price to 102. -/
theorem claim_C6_witness :
    (onPrice highPosState 102 none (some ⟨1, 102⟩) "t2").2
      = some (BotAction.sell highPosition.quantity) ∧
    PosMap.get (onPrice highPosState 102 none (some ⟨1, 102⟩) "t2").1.positions
      highPosState.params.symbol = none ∧
    (onPrice highPosState 102 none (some ⟨1, 102⟩) "t2").1.last_reference_price
      = some 102 := by
  have h := claim_C6_trailing_stop highPosState 102 none (some ⟨1, 102⟩) "t2" 100
    highPosition rfl
    (by norm_num [highPosState, Parameters.default, PosMap.get])
    rfl
    (by simp [highPosState, PosMap.keys])
    (by norm_num [highPosState, highPosition, Parameters.default])
  have hsell : (onPrice highPosState 102 none (some ⟨1, 102⟩) "t2").2
      = some (BotAction.sell highPosition.quantity) :=
    h.1.mpr (by norm_num [highPosState, highPosition, Parameters.default, max_def])
  exact ⟨hsell, (h.2.2 ⟨1, 102⟩ rfl hsell).1, (h.2.2 ⟨1, 102⟩ rfl hsell).2⟩

/-- Claim C7 evaluated at the failing input: with `running` true and the
reference price seeded at 100, a tick at 105 whose `save_state` raises is
swallowed by the monitor loop's generic handler — the in-memory reference
price has already moved to 105 (diverging from disk) and `running` is
still true, so the loop proceeds to the next tick instead of halting. -/
theorem claim_C7_persistence_failure_continues :
    (monitorIter stateSeeded (some 105) none none "t1" false).running = true ∧
    (monitorIter stateSeeded (some 105) none none "t1" false).last_reference_price
      = some 105 ∧
    (onPriceRun stateSeeded 105 none none "t1" false).2.2 = false := by
  refine ⟨?_, ?_, ?_⟩ <;>
    norm_num [monitorIter, onPriceRun, stateSeeded, stateRun, initState,
      Parameters.default, PosMap.get]

/-- Claim C8: persistence round-trips — loading the document produced by
saving any state yields that state back (all fields written under their
own keys, no default kicks in). -/
theorem claim_C8_round_trip (s : BotState) : load_state (save_state s) = s := rfl

/-- Claim C9: a tick reads and writes only the position stored under the
active symbol — entries under any other key are untouched in every
reachable state — and `!setcoin` changes the symbol and clears the
reference price while leaving the positions dictionary, budget and
running flag untouched. -/
theorem claim_C9_frame :
    (∀ s, Reach s → ∀ (price : ℚ) (buyRes sellRes : Option Fill) (now : String)
      (k : String), k ≠ s.params.symbol →
      PosMap.get (onPrice s price buyRes sellRes now).1.positions k
        = PosMap.get s.positions k) ∧
    (∀ (s : BotState) (sym : String),
      (setcoin s sym).positions = s.positions ∧
      (setcoin s sym).last_reference_price = none ∧
      (setcoin s sym).params.symbol = upperStr sym ∧
      (setcoin s sym).remaining_budget = s.remaining_budget ∧
      (setcoin s sym).running = s.running) := by
  constructor
  · intro s hs price buyRes sellRes now k hk
    have hinv := reach_inv s hs
    rcases onPrice_positions_cases s price buyRes sellRes now with
      h | ⟨f, hb, hq, hnone, heq⟩ | ⟨pos0, hget, heq | ⟨f, hsr, heq⟩⟩
    · rw [h]
    · rw [heq, PosMap.get_insert, if_neg (fun hh => hk hh.symm)]
    · rw [heq, PosMap.get_insert, if_neg (fun hh => hk hh.symm)]
    · have hsym : pos0.symbol = s.params.symbol := (hinv.pos_wf _ _ hget).1
      rw [heq, hsym,
        PosMap.get_erase _ _ _ (PosMap.keys_nodup_insert _ _ _ hinv.keys_nodup),
        if_neg (fun hh => hk hh.symm), PosMap.get_insert,
        if_neg (fun hh => hk hh.symm)]
  · intro s sym
    exact ⟨rfl, rfl, rfl, rfl, rfl⟩

/-- Witness for C9: a tick on the example state does not touch the key
ETHUSDT, and `!setcoin ethusdt` keeps the positions dictionary intact. -/
theorem claim_C9_witness :
    PosMap.get (onPrice exampleState 104 none none "t2").1.positions "ETHUSDT"
        = PosMap.get exampleState.positions "ETHUSDT" ∧
    (setcoin exampleState "ethusdt").positions = exampleState.positions :=
  ⟨claim_C9_frame.1 exampleState reach_exampleState 104 none none "t2" "ETHUSDT"
      (by simp [exampleState, Parameters.default]),
   (claim_C9_frame.2 exampleState "ethusdt").1⟩

/-- Claim C10: `start` while already running changes no state field and
creates no monitor task; `stop` while not running changes no state field
and cancels no task. -/
theorem claim_C10_start_stop (s : BotState) :
    (s.running = true → startBot s = (s, false)) ∧
    (s.running = false → stopBot s = (s, false)) := by
  constructor
  · intro h
    unfold startBot
    rw [if_pos h]
  · intro h
    unfold stopBot
    rw [if_neg (by simp [h])]

/-- Witness for C10: `start` on the running state and `stop` on the fresh
(stopped) state are both no-ops. -/
theorem claim_C10_witness :
    startBot stateRun = (stateRun, false) ∧ stopBot initState = (initState, false) :=
  ⟨(claim_C10_start_stop stateRun).1 rfl, (claim_C10_start_stop initState).2 rfl⟩
